import Mathlib

/-
Verification of the faceted table-filter engine of egui-table-filter.

Strings from the Rust source are modelled as `List Char`; `HashSet<ScalarValue>`
as `Finset ScalarValue`; Rust integer parsing (`str::parse::<u32/usize/i32>`)
as explicit `Option Nat` / `Option Int` parsers with the exact overflow bounds;
code that can panic (assert!, collect_tuple().unwrap()) returns `Option`.
-/

set_option maxHeartbeats 1600000

namespace EguiTableFilter

/-- The tagged scalar value type of src/src/table_filter.rs (enum ScalarValue). -/
inductive ScalarValue where
  | str (s : List Char)
  | u32 (n : Nat)
  | i32 (n : Int)
  | bool (b : Bool)
deriving DecidableEq

/-- Rust `str::split(",")` on a character list: the pieces between commas,
empty pieces included (so the result is always non-empty). -/
def splitComma : List Char → List (List Char)
  | [] => [[]]
  | c :: rest =>
    if c = ',' then [] :: splitComma rest
    else
      match splitComma rest with
      | [] => [[c]]
      | h :: t => (c :: h) :: t

/-- Rust `str::split("><")` on a character list: split at each (leftmost,
non-overlapping) occurrence of the two-character separator. -/
def splitRange : List Char → List (List Char)
  | [] => [[]]
  | [c] => [[c]]
  | c1 :: c2 :: rest =>
    if c1 = '>' ∧ c2 = '<' then
      [] :: splitRange rest
    else
      match splitRange (c2 :: rest) with
      | [] => [[c1]]
      | h :: t => (c1 :: h) :: t

/-- Rust `str::contains(sep)`: some contiguous run of `l` equals `sep`. -/
def containsSub (sep : List Char) : List Char → Bool
  | [] => sep.isEmpty
  | c :: rest => sep.isPrefixOf (c :: rest) || containsSub sep rest

/-- Rust `str::replace("<=", "")`: delete every (leftmost, non-overlapping)
occurrence of the two characters `<=`. -/
def removeLE : List Char → List Char
  | [] => []
  | [c] => [c]
  | c1 :: c2 :: rest =>
    if c1 = '<' ∧ c2 = '=' then removeLE rest else c1 :: removeLE (c2 :: rest)

/-- Rust `str::replace(">=", "")`. -/
def removeGE : List Char → List Char
  | [] => []
  | [c] => [c]
  | c1 :: c2 :: rest =>
    if c1 = '>' ∧ c2 = '=' then removeGE rest else c1 :: removeGE (c2 :: rest)

/-- Rust `str::replace(x, "")` for a single-character needle: drop every
occurrence of `x`. -/
def removeChar (x : Char) (l : List Char) : List Char :=
  l.filter (fun c => decide (c ≠ x))

/-- The anchored regex `^<=[0-9]+$` (LESS_THAN_EQUAL_REGEX). -/
def reLE : List Char → Bool
  | '<' :: '=' :: rest => !rest.isEmpty && rest.all (fun c => c.isDigit)
  | _ => false

/-- The anchored regex `^>=[0-9]+$` (GREATER_THAN_EQUAL_REGEX). -/
def reGE : List Char → Bool
  | '>' :: '=' :: rest => !rest.isEmpty && rest.all (fun c => c.isDigit)
  | _ => false

/-- The anchored regex `^<[0-9]+$` (LESS_THAN_REGEX). -/
def reLT : List Char → Bool
  | '<' :: rest => !rest.isEmpty && rest.all (fun c => c.isDigit)
  | _ => false

/-- The anchored regex `^>[0-9]+$` (GREATER_THAN_REGEX). -/
def reGT : List Char → Bool
  | '>' :: rest => !rest.isEmpty && rest.all (fun c => c.isDigit)
  | _ => false

/-- Numeric value of a digit string, most significant digit first. -/
def digitsVal (l : List Char) : Nat :=
  l.foldl (fun a c => a * 10 + (c.toNat - 48)) 0

/-- Drop one optional leading plus sign, as Rust integer parsing does. -/
def stripPlus : List Char → List Char
  | '+' :: rest => rest
  | l => l

/-- Shared shape of Rust unsigned-integer parsing: optional `+`, then one or
more ASCII digits, nothing else; yields the numeric value (no range check). -/
def parseNatCore (l : List Char) : Option Nat :=
  let l2 := stripPlus l
  if !l2.isEmpty && l2.all (fun c => c.isDigit) then some (digitsVal l2) else none

/-- Rust `str::parse::<u32>`: fails on malformed input and on overflow. -/
def parseU32 (l : List Char) : Option Nat :=
  match parseNatCore l with
  | some n => if n < 4294967296 then some n else none
  | none => none

/-- Rust `str::parse::<usize>` on a 64-bit target. -/
def parseU64 (l : List Char) : Option Nat :=
  match parseNatCore l with
  | some n => if n < 18446744073709551616 then some n else none
  | none => none

/-- Rust `str::parse::<i32>`: optional sign, digits, range check. -/
def parseI32 (l : List Char) : Option Int :=
  match l with
  | '-' :: rest =>
    if !rest.isEmpty && rest.all (fun c => c.isDigit) then
      if digitsVal rest ≤ 2147483648 then some (-(digitsVal rest : Int)) else none
    else none
  | _ =>
    match parseNatCore l with
    | some n => if n < 2147483648 then some n else none
    | none => none

/-- StringColumnFilter::search_pattern (src/src/column_filters.rs, lines 28-33):
split the pattern on commas, OR of prefix tests against the target. -/
def stringSearchPattern (pattern target : List Char) : Bool :=
  (splitComma pattern).any (fun p => p.isPrefixOf target)

/-- U32ColumnFilter::search_pattern (src/src/column_filters.rs, lines 79-117):
split on commas, AND of per-sub-pattern conditions; operator sub-patterns
compare the parsed target against the parsed bound (u32 on both sides),
anything else is a literal prefix test. -/
def u32SearchPattern (pattern target : List Char) : Bool :=
  (splitComma pattern).all (fun p =>
    if containsSub ['<', '='] p && reLE p then
      match parseU32 target, parseU32 (removeLE p) with
      | some x, some y => decide (x ≤ y)
      | _, _ => false
    else if containsSub ['>', '='] p && reGE p then
      match parseU32 target, parseU32 (removeGE p) with
      | some x, some y => decide (y ≤ x)
      | _, _ => false
    else if containsSub ['<'] p && reLT p then
      match parseU32 target, parseU32 (removeChar '<' p) with
      | some x, some y => decide (x < y)
      | _, _ => false
    else if containsSub ['>'] p && reGT p then
      match parseU32 target, parseU32 (removeChar '>' p) with
      | some x, some y => decide (y < x)
      | _, _ => false
    else p.isPrefixOf target)

/-- I32ColumnFilter::search_pattern (src/src/column_filters.rs, lines 206-244).
The source body is a verbatim copy of the u32 implementation: both the target
and the bound are parsed with `Result<u32, _> = ... .parse()`, not as i32. -/
def i32SearchPattern (pattern target : List Char) : Bool :=
  (splitComma pattern).all (fun p =>
    if containsSub ['<', '='] p && reLE p then
      match parseU32 target, parseU32 (removeLE p) with
      | some x, some y => decide (x ≤ y)
      | _, _ => false
    else if containsSub ['>', '='] p && reGE p then
      match parseU32 target, parseU32 (removeGE p) with
      | some x, some y => decide (y ≤ x)
      | _, _ => false
    else if containsSub ['<'] p && reLT p then
      match parseU32 target, parseU32 (removeChar '<' p) with
      | some x, some y => decide (x < y)
      | _, _ => false
    else if containsSub ['>'] p && reGT p then
      match parseU32 target, parseU32 (removeChar '>' p) with
      | some x, some y => decide (y < x)
      | _, _ => false
    else p.isPrefixOf target)

/-- Continuation of the unanchored regex `[0-9]+><[0-9]+`: `l` begins with
zero or more digits, then the characters `>` `<`, then a digit. -/
def afterD : List Char → Bool
  | c1 :: c2 :: c3 :: rest =>
    if c1 = '>' ∧ c2 = '<' then c3.isDigit
    else c1.isDigit && afterD (c2 :: c3 :: rest)
  | _ => false

/-- Rust `Regex::new("[0-9]+><[0-9]+").is_match(l)`: some position of `l`
starts a digit, more digits, then `><` and a digit. -/
def hasRangePat : List Char → Bool
  | [] => false
  | c :: rest => (c.isDigit && afterD rest) || hasRangePat rest

/-- Rust `Regex::new("<[0-9]+").is_match(l)` (unanchored): `l` contains a `<`
immediately followed by a digit. -/
def hasLtPat : List Char → Bool
  | c1 :: c2 :: rest => (decide (c1 = '<') && c2.isDigit) || hasLtPat (c2 :: rest)
  | _ => false

/-- Rust `Regex::new(">[0-9]+").is_match(l)` (unanchored). -/
def hasGtPat : List Char → Bool
  | c1 :: c2 :: rest => (decide (c1 = '>') && c2.isDigit) || hasGtPat (c2 :: rest)
  | _ => false

/-- The mileage matcher closure of ColumnFilters::default (src/src/main.rs,
lines 167-210).  `none` models the panic of `collect_tuple().unwrap()` when
splitting on `><` does not give exactly two pieces. -/
def mileageMatcher (pattern target : List Char) : Option Bool :=
  if hasRangePat pattern then
    match splitRange pattern with
    | [l, r] =>
      some (match parseU64 l, parseU64 r, parseU64 target with
            | some a, some b, some v => decide (a ≤ v) && decide (v ≤ b)
            | _, _, _ => false)
    | _ => none
  else if hasLtPat pattern then
    some (match parseU64 (removeChar '<' pattern), parseU64 target with
          | some p, some s => decide (s ≤ p)
          | _, _ => false)
  else if hasGtPat pattern then
    some (match parseU64 (removeChar '>' pattern), parseU64 target with
          | some p, some s => decide (p ≤ s)
          | _, _ => false)
  else some (pattern.isPrefixOf target)

/-- One registered column filter together with its mutable state
(src/src/table_filter.rs: the ColumnFilter trait object plus its
ColumnFilterState).  `data` is the backing dataset the filter's own
ColumnFilterState points at through its TableFilter reference;
`matcher` is the impl's search_pattern, `getString` its
get_string_value, `getValue` its get_value. -/
structure ColumnFilter (T : Type) where
  id : List Char
  getValue : T → ScalarValue
  getString : T → List Char
  matcher : List Char → List Char → Bool
  data : List T
  unselected : Finset ScalarValue
  searchField : List Char

variable {T : Type}

/-- ColumnFilter::evaluate (src/src/table_filter.rs, lines 132-135):
true iff the row's value is not in the exclusion set. -/
def ColumnFilter.evaluate (c : ColumnFilter T) (t : T) : Bool :=
  !(decide (c.getValue t ∈ c.unselected))

/-- ColumnFilter::is_active (line 136-138): the exclusion set is non-empty. -/
def ColumnFilter.is_active (c : ColumnFilter T) : Bool :=
  !(decide (c.unselected = ∅))

/-- ColumnFilter::get_eval_bool_array (lines 91-96): evaluate over the
filter's own backing data. -/
def ColumnFilter.get_eval_bool_array (c : ColumnFilter T) : List Bool :=
  c.data.map (fun t => c.evaluate t)

/-- TableFilter::evaluate (lines 25-27): AND over all registered filters. -/
def TableFilter.evaluate (cols : List (ColumnFilter T)) (t : T) : Bool :=
  cols.all (fun cf => cf.evaluate t)

/-- TableFilter::reset (lines 28-30) together with ColumnFilter::reset
(lines 118-121): clear search text and exclusion set of every column. -/
def TableFilter.reset (cols : List (ColumnFilter T)) : List (ColumnFilter T) :=
  cols.map (fun cf => { cf with searchField := [], unselected := ∅ })

/-- TableFilter::is_active_for_id (lines 36-40): filter by id, then any
is_active. -/
def TableFilter.is_active_for_id (cols : List (ColumnFilter T)) (i : List Char) : Bool :=
  (cols.filter (fun cf => decide (cf.id = i))).any (fun cf => cf.is_active)

/-- The lookup step of TableFilter::bind_for_id (lines 41-47): `find` by id;
on `none` the subsequent `map` silently does nothing. -/
def TableFilter.find_for_id (cols : List (ColumnFilter T)) (i : List Char) :
    Option (ColumnFilter T) :=
  cols.find? (fun cf => decide (cf.id = i))

/-- The assert-and-reduce block of ColumnFilter::selectable_value_bool_array
(lines 104-115): assert the collection of eval arrays is non-empty and all
arrays have the length of the first one (`none` models the assertion
failures), then AND them together starting from all-true. -/
def andReduce : List (List Bool) → Option (List Bool)
  | [] => none
  | e0 :: rest =>
    if (e0 :: rest).all (fun v => decide (v.length = e0.length)) then
      some ((e0 :: rest).foldl (fun r e => List.zipWith (fun a b => a && b) r e)
        (List.replicate e0.length true))
    else none

/-- ColumnFilter::selectable_value_bool_array (lines 97-116): collect the
eval arrays of every filter with a different id, then assert-and-reduce. -/
def ColumnFilter.selectable_value_bool_array (cols : List (ColumnFilter T))
    (c : ColumnFilter T) : Option (List Bool) :=
  andReduce ((cols.filter (fun cf => decide (cf.id ≠ c.id))).map
    (fun cf => cf.get_eval_bool_array))

/-- The `visible_unique` facet set computed in ColumnFilter::bind
(lines 176-180): the distinct values of this column at rows where the
selectable_value_bool_array is true. -/
def achievableValues (cols : List (ColumnFilter T)) (c : ColumnFilter T) :
    Option (Finset ScalarValue) :=
  (ColumnFilter.selectable_value_bool_array cols c).map (fun arr =>
    (((c.data.zip arr).filter (fun p => p.2)).map (fun p => c.getValue p.1)).toFinset)

/-- itertools `unique_by` with an explicit set of already-seen keys:
keep each element whose key has not occurred before (first occurrences,
in order). -/
def uniqueByAux (f : T → ScalarValue) (seen : List ScalarValue) :
    List T → List T
  | [] => []
  | d :: ds =>
    if f d ∈ seen then uniqueByAux f seen ds
    else d :: uniqueByAux f (f d :: seen) ds

/-- itertools `data.iter().unique_by(f)`. -/
def uniqueBy (f : T → ScalarValue) (l : List T) : List T :=
  uniqueByAux f [] l

/-- The APPLY button handler in ColumnFilter::bind (lines 216-232): if the
search text is non-empty, walk the distinct values of the dataset (first
occurrence of each) and remove the value from the exclusion set when the
matcher accepts the representative row's display string, else insert it. -/
def applySearchAction (c : ColumnFilter T) : ColumnFilter T :=
  if c.searchField.isEmpty then c
  else
    let s :=
      (uniqueBy c.getValue c.data).foldl
        (fun e d =>
          if c.matcher c.searchField (c.getString d) then e.erase (c.getValue d)
          else insert (c.getValue d) e)
        c.unselected
    { c with unselected := s }

/-- The NONE button handler (lines 234-243): insert every distinct dataset
value into the exclusion set. -/
def selectNoneAction (c : ColumnFilter T) : ColumnFilter T :=
  let s :=
    (uniqueBy c.getValue c.data).foldl (fun e d => insert (c.getValue d) e)
      c.unselected
  { c with unselected := s }

/-- The ALL button handler (lines 246-255): remove every distinct dataset
value from the exclusion set. -/
def selectAllAction (c : ColumnFilter T) : ColumnFilter T :=
  let s :=
    (uniqueBy c.getValue c.data).foldl (fun e d => e.erase (c.getValue d))
      c.unselected
  { c with unselected := s }

/-- Concrete two-row dataset used to instantiate theorems. -/
def wData : List Nat := [0, 1]

/-- A concrete column keyed by id `a`, excluding the value 1. -/
def wColA : ColumnFilter Nat :=
  { id := ['a'], getValue := fun t => ScalarValue.u32 t,
    getString := fun _ => [], matcher := fun _ _ => false,
    data := wData, unselected := {ScalarValue.u32 1}, searchField := [] }

/-- A concrete column keyed by id `b`, with an empty exclusion set. -/
def wColB : ColumnFilter Nat :=
  { id := ['b'], getValue := fun t => ScalarValue.u32 t,
    getString := fun _ => [], matcher := fun _ _ => false,
    data := wData, unselected := ∅, searchField := [] }

/-- A concrete two-column table filter state. -/
def wCols : List (ColumnFilter Nat) := [wColA, wColB]

/-- Two rows carrying the same scalar value 5 but different display strings;
search text `AB` matches the display of row 1 but not of row 0. -/
def cEx5 : ColumnFilter Nat :=
  { id := ['m'], getValue := fun _ => ScalarValue.u32 5,
    getString := fun t => if t = 0 then ['x'] else ['A', 'B'],
    matcher := fun p t => u32SearchPattern p t,
    data := [0, 1], unselected := ∅, searchField := ['A', 'B'] }

/-- A single registered column with id `a`, currently active. -/
def cEx7 : ColumnFilter Nat :=
  { id := ['a'], getValue := fun _ => ScalarValue.u32 1,
    getString := fun _ => [], matcher := fun _ _ => false,
    data := [0], unselected := {ScalarValue.u32 9}, searchField := [] }

/-- A column whose exclusion set holds a value (2) absent from its dataset
(whose only value is 1). -/
def cEx9 : ColumnFilter Nat :=
  { id := ['k'], getValue := fun _ => ScalarValue.u32 1,
    getString := fun _ => [], matcher := fun _ _ => false,
    data := [0], unselected := {ScalarValue.u32 2}, searchField := [] }

/-- A concrete replacement exclusion set used to vary a column's own state. -/
def wU : Finset ScalarValue := {ScalarValue.u32 0}

/-- A concrete replacement search text. -/
def wS : List Char := ['z']

theorem isPrefixOf_iff_append (p t : List Char) :
    p.isPrefixOf t = true ↔ ∃ r, t = p ++ r := by
  induction p generalizing t with
  | nil =>
    refine ⟨fun _ => ⟨t, rfl⟩, fun _ => ?_⟩
    cases t <;> rfl
  | cons a as ih =>
    cases t with
    | nil => simp [List.isPrefixOf]
    | cons b bs =>
      simp only [List.isPrefixOf, Bool.and_eq_true, beq_iff_eq, ih, List.cons_append,
        List.cons.injEq]
      constructor
      · rintro ⟨rfl, r, rfl⟩
        exact ⟨r, rfl, rfl⟩
      · rintro ⟨r, rfl, rfl⟩
        exact ⟨rfl, r, rfl⟩

theorem mem_foldl_insert (f : T → ScalarValue) (L : List T) (e : Finset ScalarValue)
    (v : ScalarValue) :
    (v ∈ L.foldl (fun e d => insert (f d) e) e) ↔ v ∈ e ∨ ∃ d ∈ L, f d = v := by
  induction L generalizing e with
  | nil => simp
  | cons d L ih =>
    simp only [List.foldl_cons, ih, Finset.mem_insert, List.mem_cons]
    constructor
    · rintro ((rfl | h) | ⟨d2, hd2, rfl⟩)
      · exact Or.inr ⟨d, Or.inl rfl, rfl⟩
      · exact Or.inl h
      · exact Or.inr ⟨d2, Or.inr hd2, rfl⟩
    · rintro (h | ⟨d2, (rfl | hd2), rfl⟩)
      · exact Or.inl (Or.inr h)
      · exact Or.inl (Or.inl rfl)
      · exact Or.inr ⟨d2, hd2, rfl⟩

theorem mem_foldl_erase (f : T → ScalarValue) (L : List T) (e : Finset ScalarValue)
    (v : ScalarValue) :
    (v ∈ L.foldl (fun e d => e.erase (f d)) e) ↔ v ∈ e ∧ ∀ d ∈ L, f d ≠ v := by
  induction L generalizing e with
  | nil => simp
  | cons d L ih =>
    simp only [List.foldl_cons, ih, Finset.mem_erase, List.mem_cons]
    constructor
    · rintro ⟨⟨hne, he⟩, hall⟩
      refine ⟨he, ?_⟩
      rintro d2 (rfl | hd2)
      · exact fun h => hne h.symm
      · exact hall d2 hd2
    · rintro ⟨he, hall⟩
      refine ⟨⟨fun h => hall d (Or.inl rfl) h.symm, he⟩, ?_⟩
      exact fun d2 hd2 => hall d2 (Or.inr hd2)

theorem uniqueByAux_map_nodup (f : T → ScalarValue) (seen : List ScalarValue)
    (l : List T) :
    ((uniqueByAux f seen l).map f).Nodup ∧
      ∀ v ∈ (uniqueByAux f seen l).map f, v ∉ seen := by
  induction l generalizing seen with
  | nil => simp [uniqueByAux]
  | cons d l ih =>
    by_cases h : f d ∈ seen
    · simpa [uniqueByAux, h] using ih seen
    · have ih2 := ih (f d :: seen)
      simp only [uniqueByAux, h, if_false, List.map_cons, List.nodup_cons]
      refine ⟨⟨?_, ih2.1⟩, ?_⟩
      · intro hmem
        exact (ih2.2 _ hmem) (List.mem_cons_self _ _)
      · intro v hv
        rcases List.mem_cons.mp hv with rfl | hv2
        · exact h
        · intro hseen
          exact (ih2.2 v hv2) (List.mem_cons_of_mem _ hseen)

theorem uniqueBy_map_nodup (f : T → ScalarValue) (l : List T) :
    ((uniqueBy f l).map f).Nodup :=
  (uniqueByAux_map_nodup f [] l).1

theorem uniqueByAux_find? (f : T → ScalarValue) (seen : List ScalarValue)
    (l : List T) (v : ScalarValue) :
    (uniqueByAux f seen l).find? (fun d => decide (f d = v)) =
      if v ∈ seen then none else l.find? (fun d => decide (f d = v)) := by
  induction l generalizing seen with
  | nil => simp [uniqueByAux]
  | cons d l ih =>
    by_cases hd : f d ∈ seen
    · rw [uniqueByAux, if_pos hd, ih]
      by_cases hv : v ∈ seen
      · simp [hv]
      · have hne : ¬(f d = v) := fun h => hv (h ▸ hd)
        simp [hv, List.find?_cons, hne]
    · rw [uniqueByAux, if_neg hd]
      by_cases hfv : f d = v
      · subst hfv
        simp [List.find?_cons, hd]
      · rw [List.find?_cons_of_neg _ (by simp [hfv]), ih]
        by_cases hv : v ∈ seen
        · simp [hv, List.mem_cons, hfv]
        · have : ¬(v ∈ f d :: seen) := by
            simp [List.mem_cons, hv]
            exact fun h => hfv h.symm
          rw [if_neg this, if_neg hv, List.find?_cons_of_neg _ (by simp [hfv])]

theorem uniqueBy_find? (f : T → ScalarValue) (l : List T) (v : ScalarValue) :
    (uniqueBy f l).find? (fun d => decide (f d = v)) =
      l.find? (fun d => decide (f d = v)) := by
  rw [uniqueBy, uniqueByAux_find?, if_neg (List.not_mem_nil v)]

theorem uniqueByAux_exists_iff (f : T → ScalarValue) (seen : List ScalarValue)
    (l : List T) (v : ScalarValue) :
    (∃ d ∈ uniqueByAux f seen l, f d = v) ↔ (v ∉ seen ∧ ∃ d ∈ l, f d = v) := by
  induction l generalizing seen with
  | nil => simp [uniqueByAux]
  | cons d l ih =>
    by_cases hd : f d ∈ seen
    · rw [uniqueByAux, if_pos hd, ih]
      constructor
      · rintro ⟨hv, d2, hd2, rfl⟩
        exact ⟨hv, d2, List.mem_cons_of_mem _ hd2, rfl⟩
      · rintro ⟨hv, d2, hd2, rfl⟩
        rcases List.mem_cons.mp hd2 with rfl | hd2
        · exact absurd hd hv
        · exact ⟨hv, d2, hd2, rfl⟩
    · rw [uniqueByAux, if_neg hd]
      constructor
      · rintro ⟨d2, hd2, rfl⟩
        rcases List.mem_cons.mp hd2 with rfl | hd2
        · exact ⟨hd, d2, List.mem_cons_self _ _, rfl⟩
        · rcases (ih (f d :: seen)).mp ⟨d2, hd2, rfl⟩ with ⟨hv, d3, hd3, h3⟩
          exact ⟨fun hs => hv (List.mem_cons_of_mem _ hs), d3,
            List.mem_cons_of_mem _ hd3, h3⟩
      · rintro ⟨hv, d2, hd2, rfl⟩
        rcases List.mem_cons.mp hd2 with rfl | hd2
        · exact ⟨d2, List.mem_cons_self _ _, rfl⟩
        · by_cases hfd : f d = f d2
          · exact ⟨d, List.mem_cons_self _ _, hfd⟩
          · have : f d2 ∉ f d :: seen := by
              simp only [List.mem_cons]
              rintro (h | h)
              · exact hfd h.symm
              · exact hv h
            rcases (ih (f d :: seen)).mpr ⟨this, d2, hd2, rfl⟩ with ⟨d3, hd3, h3⟩
            exact ⟨d3, List.mem_cons_of_mem _ hd3, h3⟩

theorem uniqueBy_exists_iff (f : T → ScalarValue) (l : List T) (v : ScalarValue) :
    (∃ d ∈ uniqueBy f l, f d = v) ↔ ∃ d ∈ l, f d = v := by
  rw [uniqueBy, uniqueByAux_exists_iff]
  simp

theorem zipWith_fst (acc : List Bool) (data : List T) (h : acc.length = data.length) :
    List.zipWith (fun a _ => a) acc data = acc := by
  induction acc generalizing data with
  | nil => rfl
  | cons a acc ih =>
    cases data with
    | nil => simp at h
    | cons t data =>
      simp only [List.zipWith]
      rw [ih data (by simpa using h)]

theorem zipWith_zipWith_map (p : Bool → T → Bool) (f : T → Bool) (acc : List Bool)
    (data : List T) :
    List.zipWith p (List.zipWith (fun a b => a && b) acc (data.map f)) data =
      List.zipWith (fun a t => p (a && f t) t) acc data := by
  induction acc generalizing data with
  | nil => rfl
  | cons a acc ih =>
    cases data with
    | nil => rfl
    | cons t data =>
      simp only [List.map_cons, List.zipWith]
      rw [ih data]

theorem zipWith_replicate_true (g : T → Bool) (data : List T) :
    List.zipWith (fun a t => a && g t) (List.replicate data.length true) data =
      data.map g := by
  induction data with
  | nil => rfl
  | cons t data ih =>
    simp only [List.length_cons, List.replicate_succ, List.zipWith, List.map_cons,
      Bool.true_and]
    rw [ih]

theorem foldl_zipWith_and (fs : List (T → Bool)) (data : List T) (acc : List Bool)
    (h : acc.length = data.length) :
    (fs.map (fun f => data.map f)).foldl
        (fun r e => List.zipWith (fun a b => a && b) r e) acc =
      List.zipWith (fun a t => a && fs.all (fun f => f t)) acc data := by
  induction fs generalizing acc with
  | nil =>
    simp only [List.map_nil, List.foldl_nil, List.all_nil, Bool.and_true]
    exact (zipWith_fst acc data h).symm
  | cons f fs ih =>
    simp only [List.map_cons, List.foldl_cons]
    rw [ih (List.zipWith (fun a b => a && b) acc (data.map f))
      (by simp [List.length_zipWith, h])]
    rw [zipWith_zipWith_map (fun a t => a && fs.all (fun g => g t)) f acc data]
    simp only [List.all_cons, Bool.and_assoc]

theorem all_map_eval (os : List (ColumnFilter T)) (t : T) :
    (os.map (fun cf => fun t2 => cf.evaluate t2)).all (fun f => f t) =
      os.all (fun cf => cf.evaluate t) := by
  induction os with
  | nil => rfl
  | cons o os ih => simp only [List.map_cons, List.all_cons, ih]

theorem selectable_eq (data : List T) (cols : List (ColumnFilter T))
    (c : ColumnFilter T) (hd : ∀ cf ∈ cols, cf.data = data)
    (hne : ∃ cf ∈ cols, cf.id ≠ c.id) :
    ColumnFilter.selectable_value_bool_array cols c =
      some (data.map (fun t =>
        (cols.filter (fun cf => decide (cf.id ≠ c.id))).all
          (fun cf => cf.evaluate t))) := by
  have hevals : (cols.filter (fun cf => decide (cf.id ≠ c.id))).map
      (fun cf => cf.get_eval_bool_array) =
      ((cols.filter (fun cf => decide (cf.id ≠ c.id))).map
        (fun cf => fun t => cf.evaluate t)).map (fun f => data.map f) := by
    rw [List.map_map]
    apply List.map_congr_left
    intro cf hcf
    have : cf.data = data := hd cf (List.mem_filter.mp hcf).1
    simp [ColumnFilter.get_eval_bool_array, Function.comp, this]
  obtain ⟨cf0, hcf0, hne0⟩ := hne
  have hmem0 : cf0 ∈ cols.filter (fun cf => decide (cf.id ≠ c.id)) :=
    List.mem_filter.mpr ⟨hcf0, by simp [hne0]⟩
  rw [ColumnFilter.selectable_value_bool_array, hevals]
  cases hO : cols.filter (fun cf => decide (cf.id ≠ c.id)) with
  | nil => rw [hO] at hmem0; exact absurd hmem0 (List.not_mem_nil cf0)
  | cons o os =>
    simp only [List.map_cons]
    rw [andReduce]
    have hlen : ∀ v ∈ (data.map (fun t => o.evaluate t)) ::
        (os.map (fun cf => fun t => cf.evaluate t)).map (fun f => data.map f),
        v.length = data.length := by
      intro v hv
      rcases List.mem_cons.mp hv with rfl | hv2
      · simp
      · rcases List.mem_map.mp hv2 with ⟨g, _, rfl⟩
        simp
    rw [if_pos]
    · have hfold := foldl_zipWith_and
        ((o :: os).map (fun cf => fun t => cf.evaluate t)) data
        (List.replicate (data.map (fun t => o.evaluate t)).length true)
        (by simp)
      simp only [List.map_cons] at hfold
      rw [hfold]
      simp only [List.length_map]
      rw [zipWith_replicate_true]
      rw [Option.some_inj]
      apply List.map_congr_left
      intro t _
      simp only [List.all_cons]
      rw [all_map_eval]
    · rw [List.all_eq_true]
      intro v hv
      have h1 := hlen v hv
      have h2 : (data.map (fun t => o.evaluate t)).length = data.length := by simp
      simp [h1, h2]

theorem filter_modify (cols : List (ColumnFilter T)) (c : ColumnFilter T)
    (u : Finset ScalarValue) (s : List Char) :
    ((cols.map (fun cf => if cf.id = c.id then
        { cf with unselected := u, searchField := s } else cf)).filter
      (fun cf => decide (cf.id ≠ c.id))) =
      cols.filter (fun cf => decide (cf.id ≠ c.id)) := by
  induction cols with
  | nil => rfl
  | cons cf cols ih =>
    by_cases h : cf.id = c.id
    · simp only [List.map_cons, if_pos h, List.filter_cons]
      rw [ih]
      simp [h]
    · simp only [List.map_cons, if_neg h, List.filter_cons]
      rw [ih]

theorem exists_other_of_two (cols : List (ColumnFilter T)) (c : ColumnFilter T)
    (hnd : (cols.map (fun cf => cf.id)).Nodup) (hc : c ∈ cols)
    (h2 : 2 ≤ cols.length) :
    ∃ cf ∈ cols, cf.id ≠ c.id := by
  cases cols with
  | nil => exact absurd hc (List.not_mem_nil c)
  | cons a tl =>
    cases tl with
    | nil => simp at h2
    | cons b tl =>
      rw [List.map_cons, List.nodup_cons] at hnd
      rcases List.mem_cons.mp hc with rfl | hc2
      · refine ⟨b, by simp, fun h => ?_⟩
        exact hnd.1 (List.mem_map.mpr ⟨b, by simp, h⟩)
      · refine ⟨a, by simp, fun h => ?_⟩
        exact hnd.1 (List.mem_map.mpr ⟨c, hc2, h.symm⟩)

theorem mem_foldl_apply_frame (m : T → Bool) (f : T → ScalarValue) (L : List T)
    (e : Finset ScalarValue) (v : ScalarValue) (hL : ∀ d ∈ L, f d ≠ v) :
    (v ∈ L.foldl (fun e d => if m d then e.erase (f d) else insert (f d) e) e) ↔
      v ∈ e := by
  induction L generalizing e with
  | nil => simp
  | cons d L ih =>
    have hd : f d ≠ v := hL d (List.mem_cons_self _ _)
    rw [List.foldl_cons, ih _ (fun d2 h2 => hL d2 (List.mem_cons_of_mem _ h2))]
    by_cases hm : m d
    · rw [if_pos hm, Finset.mem_erase]
      exact ⟨fun h => h.2, fun h => ⟨fun hh => hd hh.symm, h⟩⟩
    · rw [if_neg hm, Finset.mem_insert]
      exact ⟨fun h => h.resolve_left (fun hh => hd hh.symm), Or.inr⟩

theorem mem_foldl_apply (m : T → Bool) (f : T → ScalarValue) (L : List T)
    (e : Finset ScalarValue) (v : ScalarValue) (hnd : (L.map f).Nodup) :
    (v ∈ L.foldl (fun e d => if m d then e.erase (f d) else insert (f d) e) e) ↔
      (match L.find? (fun d => decide (f d = v)) with
       | some d => m d = false
       | none => v ∈ e) := by
  induction L generalizing e with
  | nil => simp
  | cons d L ih =>
    rw [List.map_cons, List.nodup_cons] at hnd
    by_cases hfd : f d = v
    · rw [List.find?_cons_of_pos _ (by simp [hfd]), List.foldl_cons]
      have hframe : ∀ d2 ∈ L, f d2 ≠ v := by
        intro d2 h2 hEq
        exact hnd.1 (by rw [hfd, ← hEq]; exact List.mem_map.mpr ⟨d2, h2, rfl⟩)
      rw [mem_foldl_apply_frame m f L _ v hframe]
      by_cases hm : m d
      · rw [if_pos hm]
        simp only [hm, Finset.mem_erase, hfd]
        constructor
        · rintro ⟨h, _⟩; exact absurd rfl h
        · intro h; cases h
      · rw [if_neg hm]
        simp only [Finset.mem_insert, hfd]
        simp [Bool.eq_false_iff.mpr hm]
    · rw [List.find?_cons_of_neg _ (by simp [hfd]), List.foldl_cons, ih _ hnd.2]
      cases hfind : L.find? (fun d2 => decide (f d2 = v)) with
      | some d2 => rfl
      | none =>
        simp only [hfind]
        by_cases hm : m d
        · rw [if_pos hm, Finset.mem_erase]
          exact ⟨fun h => h.2, fun h => ⟨fun hh => hfd hh.symm, h⟩⟩
        · rw [if_neg hm, Finset.mem_insert]
          exact ⟨fun h => h.resolve_left (fun hh => hfd hh.symm), Or.inr⟩

/-- C1: TableFilter.evaluate equals the AND over all registered ColumnFilters
of evaluate; ColumnFilter.evaluate is true iff the row's value is not in that
column's exclusion set; a column with an empty exclusion set evaluates true
for every row; and the (uncommitted) search text never changes any evaluate
result, per column or table-wide. -/
theorem claim_C1 (T : Type) (cols : List (ColumnFilter T)) (c : ColumnFilter T)
    (t : T) (s : List Char) :
    (TableFilter.evaluate cols t = true ↔ ∀ cf ∈ cols, cf.evaluate t = true)
    ∧ (c.evaluate t = true ↔ c.getValue t ∉ c.unselected)
    ∧ (c.unselected = ∅ → c.evaluate t = true)
    ∧ (ColumnFilter.evaluate { c with searchField := s } t = c.evaluate t)
    ∧ (TableFilter.evaluate (cols.map (fun cf => { cf with searchField := s })) t
        = TableFilter.evaluate cols t) := by
  refine ⟨?_, ?_, ?_, ?_, ?_⟩
  · rw [TableFilter.evaluate]
    exact List.all_eq_true
  · rw [ColumnFilter.evaluate]
    simp
  · intro h
    rw [ColumnFilter.evaluate, h]
    simp
  · rfl
  · induction cols with
    | nil => rfl
    | cons cf cols ih =>
      simp only [TableFilter.evaluate, List.map_cons, List.all_cons] at ih ⊢
      rw [ih]
      rfl

/-- Witness for C1: a concrete column with an empty exclusion set evaluates
true on a concrete row. -/
theorem claim_C1_witness : ColumnFilter.evaluate wColB 0 = true :=
  (claim_C1 Nat wCols wColB 0 []).2.2.1 rfl

/-- C2: the signed-integer column filter contradicts the claim: its
search_pattern parses the target with the unsigned u32 parser (a verbatim
copy of the u32 impl), so the display string -5 of row value -5 fails to
parse and sub-pattern <10 yields false, although in the column's numeric
kind i32 the target parses to -5 and -5 < 10 would make it match.  The
unsigned half of the claim does hold, as the last conjunct illustrates. -/
theorem claim_C2 :
    i32SearchPattern ("<10".toList) ("-5".toList) = false
    ∧ parseI32 ("-5".toList) = some (-5)
    ∧ ((-5 : Int) < 10)
    ∧ u32SearchPattern (">500,<1000".toList) ("642".toList) = true
    ∧ u32SearchPattern (">500,<1000".toList) ("1100".toList) = false := by
  refine ⟨?_, ?_, ?_, ?_, ?_⟩ <;> decide

/-- C3: the text-column search pattern splits on commas and matches iff the
target starts with at least one comma-separated sub-pattern (logical OR of
literal-prefix tests); in particular pattern AB,SE matches exactly the
targets starting with AB or with SE. -/
theorem claim_C3 :
    (∀ pattern target : List Char,
      (stringSearchPattern pattern target = true ↔
        ∃ p ∈ splitComma pattern, ∃ r, target = p ++ r))
    ∧ (∀ target : List Char,
        stringSearchPattern ("AB,SE".toList) target =
          (List.isPrefixOf ("AB".toList) target ||
            List.isPrefixOf ("SE".toList) target)) := by
  constructor
  · intro pattern target
    rw [stringSearchPattern, List.any_eq_true]
    constructor
    · rintro ⟨p, hp, hpre⟩
      exact ⟨p, hp, (isPrefixOf_iff_append p target).mp hpre⟩
    · rintro ⟨p, hp, r, rfl⟩
      exact ⟨p, hp, (isPrefixOf_iff_append p (p ++ r)).mpr ⟨r, rfl⟩⟩
  · intro target
    have hsplit : splitComma ("AB,SE".toList) = ["AB".toList, "SE".toList] := by
      decide
    rw [stringSearchPattern, hsplit]
    simp only [List.any_cons, List.any_nil, Bool.or_false]

/-- C7 counterexample: with a single registered, active column of id a,
querying the unregistered id b returns the normal value false from
is_active_for_id (exactly what an inactive registered column would return)
and the bind lookup returns none, so bind_for_id silently does nothing;
neither operation aborts or hits an assertion. -/
theorem claim_C7_counterexample :
    TableFilter.is_active_for_id [cEx7] ("b".toList) = false
    ∧ TableFilter.find_for_id [cEx7] ("b".toList) = none
    ∧ ("b".toList) ∉ [cEx7].map (fun cf => cf.id)
    ∧ cEx7.is_active = true := by
  refine ⟨?_, rfl, ?_, ?_⟩ <;> decide

/-- C7 amended: an id that was never registered makes is_active_for_id
return false and makes the bind_for_id lookup return none (a silent no-op);
there is no abort or assertion failure on unknown ids. -/
theorem claim_C7 (T : Type) (cols : List (ColumnFilter T)) (i : List Char)
    (h : i ∉ cols.map (fun cf => cf.id)) :
    TableFilter.is_active_for_id cols i = false
    ∧ TableFilter.find_for_id cols i = none := by
  constructor
  · rw [TableFilter.is_active_for_id]
    have hfil : cols.filter (fun cf => decide (cf.id = i)) = [] := by
      rw [List.filter_eq_nil_iff]
      intro cf hcf
      simp only [decide_eq_true_eq]
      intro hEq
      exact h (List.mem_map.mpr ⟨cf, hcf, hEq⟩)
    rw [hfil]
    rfl
  · rw [TableFilter.find_for_id, List.find?_eq_none]
    intro cf hcf
    simp only [decide_eq_true_eq]
    intro hEq
    exact h (List.mem_map.mpr ⟨cf, hcf, hEq⟩)

/-- Witness for C7 at the concrete single-column state and the unknown id z. -/
theorem claim_C7_witness :
    TableFilter.is_active_for_id [cEx7] ("z".toList) = false
    ∧ TableFilter.find_for_id [cEx7] ("z".toList) = none :=
  claim_C7 Nat [cEx7] ("z".toList) (by decide)

/-- C8: the table-level reset clears the search text and the exclusion set of
every registered ColumnFilter; afterwards every column is inactive and
evaluate is true for every row, column-wise and table-wide. -/
theorem claim_C8 (T : Type) (cols : List (ColumnFilter T)) (t : T) :
    ((TableFilter.reset cols).map (fun cf => cf.searchField) =
        cols.map (fun _ => ([] : List Char)))
    ∧ ((TableFilter.reset cols).map (fun cf => cf.unselected) =
        cols.map (fun _ => (∅ : Finset ScalarValue)))
    ∧ ((TableFilter.reset cols).all (fun cf => !cf.is_active) = true)
    ∧ (TableFilter.evaluate (TableFilter.reset cols) t = true) := by
  refine ⟨?_, ?_, ?_, ?_⟩
  · rw [TableFilter.reset, List.map_map]
    rfl
  · rw [TableFilter.reset, List.map_map]
    rfl
  · rw [TableFilter.reset, List.all_eq_true]
    intro cf hcf
    rcases List.mem_map.mp hcf with ⟨cf0, _, rfl⟩
    simp [ColumnFilter.is_active]
  · rw [TableFilter.evaluate, List.all_eq_true]
    intro cf hcf
    rw [TableFilter.reset] at hcf
    rcases List.mem_map.mp hcf with ⟨cf0, _, rfl⟩
    simp [ColumnFilter.evaluate]

/-- C5 counterexample: in a column whose two rows both carry value 5 but
display as x and AB, applying search text AB excludes 5 (the APPLY handler
only tests the first row of each distinct value), even though at least one
row bearing 5 has a matching display string — the claim would require 5 to
be outside the exclusion set. -/
theorem claim_C5_counterexample :
    (applySearchAction cEx5).unselected = {ScalarValue.u32 5}
    ∧ (1 : Nat) ∈ cEx5.data
    ∧ cEx5.getValue 1 = ScalarValue.u32 5
    ∧ cEx5.matcher cEx5.searchField (cEx5.getString 1) = true := by
  refine ⟨by decide, by decide, rfl, by decide⟩

/-- C5 amended: apply-search with empty search text is a no-op; otherwise a
value present in the dataset ends outside the exclusion set iff the matcher
accepts the display string of the first row in dataset order bearing that
value (not of some arbitrary row bearing it), regardless of prior
membership; values not present in the dataset keep their prior membership. -/
theorem claim_C5 (T : Type) (c : ColumnFilter T) (v : ScalarValue) (d0 : T) :
    (c.searchField = [] → applySearchAction c = c)
    ∧ (c.searchField ≠ [] →
        c.data.find? (fun d => decide (c.getValue d = v)) = some d0 →
        ((v ∈ (applySearchAction c).unselected) ↔
          c.matcher c.searchField (c.getString d0) = false))
    ∧ (c.searchField ≠ [] → (∀ d ∈ c.data, c.getValue d ≠ v) →
        ((v ∈ (applySearchAction c).unselected) ↔ v ∈ c.unselected)) := by
  refine ⟨?_, ?_, ?_⟩
  · intro h
    rw [applySearchAction, h]
    rfl
  · intro hne hfind
    have hF : c.searchField.isEmpty = false := by
      cases hsf : c.searchField with
      | nil => exact absurd hsf hne
      | cons a l => rfl
    rw [applySearchAction, hF]
    simp only [Bool.false_eq_true, if_false]
    rw [mem_foldl_apply (fun d => c.matcher c.searchField (c.getString d))
      c.getValue (uniqueBy c.getValue c.data) c.unselected v
      (uniqueBy_map_nodup c.getValue c.data)]
    rw [uniqueBy_find?, hfind]
  · intro hne hnone
    have hF : c.searchField.isEmpty = false := by
      cases hsf : c.searchField with
      | nil => exact absurd hsf hne
      | cons a l => rfl
    rw [applySearchAction, hF]
    simp only [Bool.false_eq_true, if_false]
    rw [mem_foldl_apply (fun d => c.matcher c.searchField (c.getString d))
      c.getValue (uniqueBy c.getValue c.data) c.unselected v
      (uniqueBy_map_nodup c.getValue c.data)]
    rw [uniqueBy_find?]
    rw [List.find?_eq_none.mpr (by intro d hd; simpa using hnone d hd)]

/-- Witness for C5 at the concrete column: the membership of value 5 after
apply-search is decided by the display string of row 0, the first row
bearing it. -/
theorem claim_C5_witness :
    (ScalarValue.u32 5 ∈ (applySearchAction cEx5).unselected) ↔
      cEx5.matcher cEx5.searchField (cEx5.getString 0) = false :=
  (claim_C5 Nat cEx5 (ScalarValue.u32 5) 0).2.1 (by decide) (by decide)

/-- C9 counterexample: a column whose exclusion set holds the stale value 2,
absent from its dataset, stays active after selectNone followed by
selectAll — the round trip only removes values the dataset still contains. -/
theorem claim_C9_counterexample :
    (selectAllAction (selectNoneAction cEx9)).unselected = {ScalarValue.u32 2}
    ∧ (selectAllAction (selectNoneAction cEx9)).is_active = true := by
  exact ⟨by decide, by decide⟩

/-- C9 amended: provided every value of the starting exclusion set occurs in
the dataset (as is the case for any state produced by the filter's own
actions over an unchanged dataset), selectNone followed by selectAll leaves
the exclusion set empty and the column inactive. -/
theorem claim_C9 (T : Type) (c : ColumnFilter T)
    (h : ∀ v ∈ c.unselected, ∃ d ∈ c.data, c.getValue d = v) :
    (selectAllAction (selectNoneAction c)).unselected = ∅
    ∧ (selectAllAction (selectNoneAction c)).is_active = false := by
  have hmain : (selectAllAction (selectNoneAction c)).unselected = ∅ := by
    apply Finset.eq_empty_iff_forall_not_mem.mpr
    intro v hv
    simp only [selectAllAction, selectNoneAction] at hv
    rcases (mem_foldl_erase c.getValue (uniqueBy c.getValue c.data) _ v).mp hv with
      ⟨h1, h2⟩
    rcases (mem_foldl_insert c.getValue (uniqueBy c.getValue c.data) _ v).mp h1 with
      h3 | h3
    · rcases h v h3 with ⟨d, hd, hdv⟩
      rcases (uniqueBy_exists_iff c.getValue c.data v).mpr ⟨d, hd, hdv⟩ with
        ⟨d2, hd2, hdv2⟩
      exact h2 d2 hd2 hdv2
    · rcases h3 with ⟨d2, hd2, hdv2⟩
      exact h2 d2 hd2 hdv2
  refine ⟨hmain, ?_⟩
  simp [ColumnFilter.is_active, hmain]

/-- Witness for C9 at a concrete column whose single excluded value 1 occurs
in its dataset. -/
theorem claim_C9_witness :
    (selectAllAction (selectNoneAction wColA)).unselected = ∅
    ∧ (selectAllAction (selectNoneAction wColA)).is_active = false :=
  claim_C9 Nat wColA (by decide)

/-- C6: whenever some other column is registered, the facet vector equals,
at each row, the AND of evaluate over every registered column other than the
queried one; and both the vector and the achievable value set are invariant
under arbitrary changes to the queried column's own exclusion set and search
text. -/
theorem claim_C6 (T : Type) (data : List T) (cols : List (ColumnFilter T))
    (c : ColumnFilter T) (u : Finset ScalarValue) (s : List Char)
    (hd : ∀ cf ∈ cols, cf.data = data)
    (hne : ∃ cf ∈ cols, cf.id ≠ c.id) :
    (ColumnFilter.selectable_value_bool_array cols c =
      some (data.map (fun t =>
        (cols.filter (fun cf => decide (cf.id ≠ c.id))).all
          (fun cf => cf.evaluate t))))
    ∧ (ColumnFilter.selectable_value_bool_array
        (cols.map (fun cf => if cf.id = c.id then
          { cf with unselected := u, searchField := s } else cf))
        { c with unselected := u, searchField := s } =
       ColumnFilter.selectable_value_bool_array cols c)
    ∧ (achievableValues
        (cols.map (fun cf => if cf.id = c.id then
          { cf with unselected := u, searchField := s } else cf))
        { c with unselected := u, searchField := s } =
       achievableValues cols c) := by
  have hinv : ColumnFilter.selectable_value_bool_array
      (cols.map (fun cf => if cf.id = c.id then
        { cf with unselected := u, searchField := s } else cf))
      { c with unselected := u, searchField := s } =
      ColumnFilter.selectable_value_bool_array cols c := by
    rw [ColumnFilter.selectable_value_bool_array,
      ColumnFilter.selectable_value_bool_array]
    rw [filter_modify cols c u s]
  refine ⟨selectable_eq data cols c hd hne, hinv, ?_⟩
  rw [achievableValues, achievableValues, hinv]

/-- Witness for C6: at the concrete two-column state, replacing column a's
own exclusion set and search text leaves the facet vector unchanged. -/
theorem claim_C6_witness :
    ColumnFilter.selectable_value_bool_array
        (wCols.map (fun cf => if cf.id = wColA.id then
          { cf with unselected := wU, searchField := wS } else cf))
        { wColA with unselected := wU, searchField := wS } =
      ColumnFilter.selectable_value_bool_array wCols wColA :=
  (claim_C6 Nat wData wCols wColA wU wS
    (by intro cf hcf; fin_cases hcf <;> rfl)
    ⟨wColB, by rw [wCols]; exact List.mem_cons_of_mem _ (List.mem_cons_self _ _),
      by decide⟩).2.1

/-- C10: with the queried column registered among at least two columns with
distinct ids, all bound to the same backing dataset, both assertions of the
facet computation succeed and the returned vector has the dataset's length;
when the queried column is the only registered filter, the computation
aborts on the non-emptiness assertion. -/
theorem claim_C10 (T : Type) (data : List T) (cols : List (ColumnFilter T))
    (c : ColumnFilter T) (hd : ∀ cf ∈ cols, cf.data = data)
    (hnd : (cols.map (fun cf => cf.id)).Nodup) (hc : c ∈ cols)
    (h2 : 2 ≤ cols.length) :
    (∃ v, ColumnFilter.selectable_value_bool_array cols c = some v
        ∧ v.length = data.length)
    ∧ (∀ c0 : ColumnFilter T,
        ColumnFilter.selectable_value_bool_array [c0] c0 = none) := by
  constructor
  · have hne := exists_other_of_two cols c hnd hc h2
    exact ⟨_, selectable_eq data cols c hd hne, by simp⟩
  · intro c0
    rw [ColumnFilter.selectable_value_bool_array]
    have hfil : [c0].filter (fun cf => decide (cf.id ≠ c0.id)) = [] := by
      simp
    rw [hfil]
    rfl

/-- Witness for C10: at the concrete two-column state the facet vector for
column a exists and has the dataset's length. -/
theorem claim_C10_witness :
    ∃ v, ColumnFilter.selectable_value_bool_array wCols wColA = some v
        ∧ v.length = wData.length :=
  (claim_C10 Nat wData wCols wColA
    (by intro cf hcf; fin_cases hcf <;> rfl)
    (by decide)
    (List.mem_cons_self _ _)
    (by decide)).1

theorem digit_ne_gt (ch : Char) (h : ch.isDigit = true) : ch ≠ '>' := by
  rintro rfl
  exact absurd h (by decide)

theorem splitRange_no_gt (l : List Char) (h : ∀ ch ∈ l, ch ≠ '>') :
    splitRange l = [l] := by
  induction l with
  | nil => rfl
  | cons c rest ih =>
    cases rest with
    | nil => rfl
    | cons c2 rest2 =>
      simp only [splitRange]
      rw [if_neg (by rintro ⟨rfl, _⟩; exact h '>' (List.mem_cons_self _ _) rfl)]
      rw [ih (fun ch hch => h ch (List.mem_cons_of_mem _ hch))]

theorem splitRange_cons_sep (B : List Char) (hB : ∀ ch ∈ B, ch ≠ '>') :
    splitRange ('>' :: '<' :: B) = [[], B] := by
  simp [splitRange, splitRange_no_gt B hB]

theorem afterD_cons_of_ne (c1 c2 c3 : Char) (rest : List Char)
    (h : ¬(c1 = '>' ∧ c2 = '<')) :
    afterD (c1 :: c2 :: c3 :: rest) = (c1.isDigit && afterD (c2 :: c3 :: rest)) := by
  simp only [afterD]
  rw [if_neg h]

theorem splitRange_append (A B : List Char) (hA : ∀ ch ∈ A, ch ≠ '>')
    (hB : ∀ ch ∈ B, ch ≠ '>') :
    splitRange (A ++ '>' :: '<' :: B) = [A, B] := by
  induction A with
  | nil => simpa using splitRange_cons_sep B hB
  | cons a A ih =>
    have hane : a ≠ '>' := hA a (List.mem_cons_self _ _)
    have hA2 : ∀ ch ∈ A, ch ≠ '>' := fun ch hch => hA ch (List.mem_cons_of_mem _ hch)
    cases hAB : A ++ '>' :: '<' :: B with
    | nil => simp at hAB
    | cons x xs =>
      rw [List.cons_append, hAB]
      simp only [splitRange]
      rw [if_neg (fun hand => hane hand.1)]
      rw [← hAB, ih hA2]

theorem afterD_sep (b : Char) (B : List Char) (hb : b.isDigit = true) :
    afterD ('>' :: '<' :: b :: B) = true := by
  simp [afterD, hb]

theorem afterD_digits (A : List Char) (hA : ∀ ch ∈ A, ch.isDigit = true)
    (b : Char) (B : List Char) (hb : b.isDigit = true) :
    afterD (A ++ '>' :: '<' :: b :: B) = true := by
  induction A with
  | nil => exact afterD_sep b B hb
  | cons a A ih =>
    have ha : a.isDigit = true := hA a (List.mem_cons_self _ _)
    have hA2 : ∀ ch ∈ A, ch.isDigit = true :=
      fun ch hch => hA ch (List.mem_cons_of_mem _ hch)
    cases A with
    | nil =>
      simp only [List.nil_append, List.cons_append]
      rw [afterD_cons_of_ne a '>' '<' (b :: B)
        (by rintro ⟨_, hlt⟩; exact absurd hlt (by decide))]
      rw [ha, Bool.true_and]
      exact afterD_sep b B hb
    | cons a2 A2 =>
      cases hsh : A2 ++ '>' :: '<' :: b :: B with
      | nil => simp at hsh
      | cons c3 rest =>
        rw [List.cons_append, List.cons_append, hsh]
        rw [afterD_cons_of_ne a a2 c3 rest
          (by rintro ⟨h1, _⟩; exact digit_ne_gt a ha h1)]
        rw [ha, Bool.true_and, ← hsh, ← List.cons_append]
        exact ih hA2

theorem hasRangePat_append (A : List Char) (hA : ∀ ch ∈ A, ch.isDigit = true)
    (hAne : A ≠ []) (b : Char) (B : List Char) (hb : b.isDigit = true) :
    hasRangePat (A ++ '>' :: '<' :: b :: B) = true := by
  cases A with
  | nil => exact absurd rfl hAne
  | cons a A =>
    rw [List.cons_append]
    simp only [hasRangePat]
    rw [hA a (List.mem_cons_self _ _),
      afterD_digits A (fun ch hch => hA ch (List.mem_cons_of_mem _ hch)) b B hb]
    rfl

/-- C4 counterexample: the single-form range pattern 10><20 does not match
value 15 under U32ColumnFilter::search_pattern — there the pattern falls
through to the literal-prefix fallback — although 10 ≤ 15 ≤ 20, so the
claim fails for that numeric column. -/
theorem claim_C4_counterexample :
    u32SearchPattern ("10><20".toList) ("15".toList) = false
    ∧ ((10 : Nat) ≤ 15 ∧ (15 : Nat) ≤ 20)
    ∧ parseU32 ("15".toList) = some 15 := by
  refine ⟨by decide, by decide, by decide⟩

/-- C4 amended: the inclusive-range grammar A-greater-less-B is implemented
by the demo application's per-column matcher closures (here the mileage
matcher of ColumnFilters::default), not by the U32/I32 column filters: for
digit strings A and B the mileage matcher returns exactly the comparison of
the three usize parses, matching v iff A ≤ v ≤ B, with any parse failure
yielding false; in particular 10><20 matches v iff 10 ≤ v ≤ 20. -/
theorem claim_C4 :
    (∀ A B target : List Char, A ≠ [] → B ≠ [] →
      (∀ ch ∈ A, ch.isDigit = true) → (∀ ch ∈ B, ch.isDigit = true) →
      mileageMatcher (A ++ '>' :: '<' :: B) target =
        some (match parseU64 A, parseU64 B, parseU64 target with
              | some a2, some b2, some v => decide (a2 ≤ v) && decide (v ≤ b2)
              | _, _, _ => false))
    ∧ (∀ A B target : List Char, ∀ a2 b2 v : Nat, A ≠ [] → B ≠ [] →
        (∀ ch ∈ A, ch.isDigit = true) → (∀ ch ∈ B, ch.isDigit = true) →
        parseU64 A = some a2 → parseU64 B = some b2 → parseU64 target = some v →
        (mileageMatcher (A ++ '>' :: '<' :: B) target = some true ↔
          (a2 ≤ v ∧ v ≤ b2)))
    ∧ (∀ target : List Char, ∀ v : Nat, parseU64 target = some v →
        mileageMatcher ("10><20".toList) target =
          some (decide (10 ≤ v ∧ v ≤ 20))) := by
  have hmain : ∀ A B target : List Char, A ≠ [] → B ≠ [] →
      (∀ ch ∈ A, ch.isDigit = true) → (∀ ch ∈ B, ch.isDigit = true) →
      mileageMatcher (A ++ '>' :: '<' :: B) target =
        some (match parseU64 A, parseU64 B, parseU64 target with
              | some a2, some b2, some v => decide (a2 ≤ v) && decide (v ≤ b2)
              | _, _, _ => false) := by
    intro A B target hAne hBne hA hB
    cases B with
    | nil => exact absurd rfl hBne
    | cons b B2 =>
      have hb : b.isDigit = true := hB b (List.mem_cons_self _ _)
      rw [mileageMatcher]
      rw [hasRangePat_append A hA hAne b B2 hb]
      rw [if_pos rfl]
      rw [splitRange_append A (b :: B2)
        (fun ch hch => digit_ne_gt ch (hA ch hch))
        (fun ch hch => digit_ne_gt ch (hB ch hch))]
  refine ⟨hmain, ?_, ?_⟩
  · intro A B target a2 b2 v hAne hBne hA hB ha hb hv
    rw [hmain A B target hAne hBne hA hB, ha, hb, hv]
    simp
  · intro target v hv
    have heq : ("10><20".toList) = ("10".toList ++ '>' :: '<' :: ("20".toList)) := by
      decide
    rw [heq, hmain ("10".toList) ("20".toList) target (by decide) (by decide)
      (by decide) (by decide), hv]
    rw [show parseU64 ("10".toList) = some 10 from by decide]
    rw [show parseU64 ("20".toList) = some 20 from by decide]
    congr 1
    by_cases h1 : 10 ≤ v <;> by_cases h2 : v ≤ 20 <;> simp [h1, h2]

/-- Witness for C4: the mileage matcher on pattern 10><20 and target 15. -/
theorem claim_C4_witness :
    mileageMatcher ("10><20".toList) ("15".toList) =
      some (decide ((10 : Nat) ≤ 15 ∧ (15 : Nat) ≤ 20)) :=
  claim_C4.2.2 ("15".toList) 15 (by decide)

end EguiTableFilter
